import Mathlib

/-!
# urlshort: path-to-URL redirect handlers

A shallow embedding of `handler.go` (package `urlshort`) and the properties of
its four functions `MapHandler`, `YAMLHandler`, `parseYAML` and `buildMap`.

Modelling conventions.

* A Go `string` is a Lean `String`; a Go `[]byte` is a `List UInt8`.
* A Go slice `[]YamlPath` is a `List YamlPath`; the nil slice and the empty
  slice are both `[]` (they have the same length and the same `range` loop).
* A Go `map[string]string` is a `GoMap`: a list of key/value entries in which
  `GoMap.set` keeps every key at most once.  `GoMap.get` is the two-valued
  lookup `v, ok := m[k]`, `GoMap.set` is the assignment `m[k] = v`,
  `GoMap.len` is `len(m)`.  Go maps have no observable entry order, so two maps
  are the same map when `get` agrees on every key.
* A Go `error` is an `Option E`: `none` is the nil error.
* `http.ResponseWriter` is a state of an arbitrary type `W`; an
  `http.Handler` is a function `W → Request → W` giving the writer after
  `ServeHTTP` has run.  The request is passed by pointer in Go and is never
  written by `handler.go`, so it is passed by value here.  A request reaches
  a handler with a non-nil `URL`, and a fallback handler is a non-nil
  `http.Handler`, so neither nil case is part of the model.
* The two library functions `handler.go` calls, `net/http.Redirect` and
  `yaml.v2.Unmarshal`, are parameters of the functions that call them.
  `httpRedirect` is `net/http.Redirect` on the response writer `ResponseWriter`.
-/

namespace urlshort

/-! ## Data model -/

/-- The fields of `net/url.URL` a request carries. -/
structure URL where
  Scheme : String
  Host : String
  Path : String
  RawQuery : String
  deriving DecidableEq, Repr

/-- The fields of `net/http.Request` a handler can read. -/
structure Request where
  Method : String
  URL : URL
  Header : List (String × List String)
  Body : List UInt8
  deriving DecidableEq, Repr

/-- An `http.Handler` (and `http.HandlerFunc`): `ServeHTTP(w, req)` as a
transformer of the response writer `w`. -/
abbrev Handler (W : Type) := W → Request → W

/-- The constant `http.StatusFound`. -/
def StatusFound : Nat := 302

/-- The record type `YamlPath` of `handler.go`. -/
structure YamlPath where
  Path : String
  Url : String
  deriving DecidableEq, Repr

/-- A Go `map[string]string`. -/
abbrev GoMap := List (String × String)

namespace GoMap

/-- The map `make(map[string]string, n)`: no entries, whatever the capacity hint. -/
def make (_capacity : Nat) : GoMap := []

/-- The lookup `v, ok := m[k]`: `some v` when `ok`, `none` otherwise. -/
def get : GoMap → String → Option String
  | [], _ => none
  | (k', v') :: m, k => if k' = k then some v' else get m k

/-- The assignment `m[k] = v`: overwrites the entry of `k` when there is one,
adds an entry otherwise. -/
def set : GoMap → String → String → GoMap
  | [], k, v => [(k, v)]
  | (k', v') :: m, k, v => if k' = k then (k, v) :: m else (k', v') :: set m k v

/-- The keys of the map. -/
def keys (m : GoMap) : List String := m.map Prod.fst

/-- The number of entries, `len(m)`. -/
def len (m : GoMap) : Nat := m.length

end GoMap

/-! ## The functions of `handler.go` -/

/-- `MapHandler(pathsToUrls, fallback)`: the returned closure, applied to
`w` and `req`.  `Redirect` is `net/http.Redirect`. -/
def MapHandler {W : Type} (Redirect : W → Request → String → Nat → W)
    (pathsToUrls : GoMap) (fallback : Handler W) : Handler W :=
  fun w req =>
    let path := req.URL.Path
    match pathsToUrls.get path with
    | some dest => Redirect w req dest StatusFound
    | none => fallback w req

/-- `parseYAML(yaml)`.  `Unmarshal yaml paths` is `yaml2.Unmarshal(yaml, &paths)`:
it takes the input and the value of `paths` before the call and gives the value
of `paths` after the call together with the returned error. -/
def parseYAML {E : Type} (Unmarshal : List UInt8 → List YamlPath → List YamlPath × Option E)
    (yaml : List UInt8) : List YamlPath × Option E :=
  let paths : List YamlPath := []
  let (paths, err) := Unmarshal yaml paths
  match err with
  | some e => ([], some e)
  | none => (paths, none)

/-- `buildMap(parsedYaml)`: the loop `for _, path := range parsedYaml` run on
the map `pathMap`. -/
def buildMapLoop (pathMap : GoMap) : List YamlPath → GoMap
  | [] => pathMap
  | path :: rest => buildMapLoop (pathMap.set path.Path path.Url) rest

/-- `buildMap(parsedYaml)`. -/
def buildMap (parsedYaml : List YamlPath) : GoMap :=
  let pathMap := GoMap.make parsedYaml.length
  buildMapLoop pathMap parsedYaml

/-- `YAMLHandler(yaml, fallback)`: the returned handler (`none` is the nil
handler) and the returned error. -/
def YAMLHandler {W E : Type} (Redirect : W → Request → String → Nat → W)
    (Unmarshal : List UInt8 → List YamlPath → List YamlPath × Option E)
    (yaml : List UInt8) (fallback : Handler W) : Option (Handler W) × Option E :=
  let (parsedYaml, err) := parseYAML Unmarshal yaml
  match err with
  | some e => (none, some e)
  | none =>
    let pathMap := buildMap parsedYaml
    (some (MapHandler Redirect pathMap fallback), none)

/-! ## Observers used to instantiate the library parameters -/

/-- One call made on a recording response writer. -/
inductive Call where
  | Redirect (req : Request) (url : String) (code : Nat)
  | ServeHTTP (req : Request)
  deriving DecidableEq, Repr

/-- A response writer that records, oldest first, the calls made with it. -/
abbrev Recorder := List Call

/-- The double of `http.Redirect` on a `Recorder`: it records its arguments. -/
def recordRedirect (w : Recorder) (req : Request) (url : String) (code : Nat) : Recorder :=
  w ++ [Call.Redirect req url code]

/-- The fallback handler on a `Recorder` that records the request it serves. -/
def recordFallback : Handler Recorder :=
  fun w req => w ++ [Call.ServeHTTP req]

/-- The request `method http://localhost<path>?<query>` with no header and no body. -/
def sampleRequest (method path query : String) : Request :=
  { Method := method, URL := { Scheme := "http", Host := "localhost", Path := path, RawQuery := query },
    Header := [], Body := [] }

/-- A request for the path `/x` that differs from `sampleRequest "GET" "/x" ""`
in its method, scheme, host, query, header and body. -/
def otherRequest : Request :=
  { Method := "DELETE", URL := { Scheme := "https", Host := "h", Path := "/x", RawQuery := "q=1" },
    Header := [("Accept", ["text/plain"])], Body := [1, 2] }

/-- The bytes of a text. -/
def bytesOf (s : String) : List UInt8 := s.toList.map (fun c => UInt8.ofNat c.toNat)

/-- The document of one record, path `/x` and url `https://example.com`. -/
def sampleDoc : List UInt8 := bytesOf "- path: /x\n  url: https://example.com\n"

/-- The document with one complete record followed by a record whose `url` is a list. -/
def brokenDoc : List UInt8 := bytesOf "- path: /p\n  url: https://p.example\n- path: /q\n  url: [1]\n"

/-- A stand-in for `yaml2.Unmarshal` that knows two documents: it decodes
`sampleDoc` to its record, decodes `brokenDoc` to the records it could fill in
and reports an error, and rejects everything else leaving `paths` as it was. -/
def sampleUnmarshal (yaml : List UInt8) (paths : List YamlPath) : List YamlPath × Option String :=
  if yaml = sampleDoc then ([⟨"/x", "https://example.com"⟩], none)
  else if yaml = brokenDoc then
    ([⟨"/p", "https://p.example"⟩, ⟨"/q", ""⟩], some "yaml: unmarshal errors")
  else (paths, some "yaml: did not find expected node content")

/-! ## The library function `net/http.Redirect`

`handler.go` answers a mapped path through `http.Redirect`.  The definitions
below follow that function of the Go library (`net/http/server.go`) and the
functions of `path` and `strings` it calls, on a response writer that keeps the
header map and the status line and header sent by the first `WriteHeader`.
`url.Parse` is a parameter `Parse`: `none` is a parse error, `some u` carries
the two fields of the parsed URL that `Redirect` reads.  The short note that
`Redirect` writes to the body of a `GET` response comes after `WriteHeader` and
changes neither the status nor the header; the body is not part of the writer.
-/

/-- An `http.Header`: the values of each header key. -/
abbrev Header := List (String × List String)

namespace Header

/-- The map index `vs, ok := h[key]`. -/
def index : Header → String → Option (List String)
  | [], _ => none
  | (k', vs) :: h, k => if k' = k then some vs else index h k

/-- The map assignment `h[key] = vs`. -/
def assign : Header → String → List String → Header
  | [], k, vs => [(k, vs)]
  | (k', vs') :: h, k, vs => if k' = k then (k, vs) :: h else (k', vs') :: assign h k vs

/-- `h.Set(key, value)` for a key written in canonical form, as `Location` and
`Content-Type` are: the key gets the single value `value`. -/
def Set (h : Header) (key value : String) : Header := assign h key [value]

end Header

/-- An `http.ResponseWriter`: `Header` is the map `w.Header()` returns, `Sent`
is the status code and the header that went out with the first `WriteHeader`,
`none` while no header has been written. -/
structure ResponseWriter where
  Header : Header
  Sent : Option (Nat × urlshort.Header)
  deriving DecidableEq, Repr

namespace ResponseWriter

/-- `w.WriteHeader(code)`: the first call sends the status code with the header
map as it is then; a later call changes nothing. -/
def WriteHeader (w : ResponseWriter) (code : Nat) : ResponseWriter :=
  match w.Sent with
  | some _ => w
  | none => { w with Sent := some (code, w.Header) }

/-- The status code of the response sent, if one was sent. -/
def Status (w : ResponseWriter) : Option Nat := w.Sent.map Prod.fst

/-- The values of the `Location` header of the response sent. -/
def Location (w : ResponseWriter) : Option (List String) :=
  w.Sent.bind (fun sent => sent.2.index "Location")

end ResponseWriter

/-- The fields `Scheme` and `Host` of the `*url.URL` that `url.Parse` returns. -/
structure ParsedURL where
  Scheme : String
  Host : String
  deriving DecidableEq, Repr

/-- The first result of `path.Split(p)`: `p` up to and including its last
slash, empty when `p` has no slash. -/
def pathSplitDir : List Char → List Char
  | [] => []
  | c :: cs => if '/' ∈ cs then c :: pathSplitDir cs else if c = '/' then ['/'] else []

/-- The elements of a path: the pieces between its slashes. -/
def splitSlash : List Char → List (List Char)
  | [] => [[]]
  | c :: cs =>
    match splitSlash cs with
    | [] => [[]]
    | e :: es => if c = '/' then [] :: e :: es else (c :: e) :: es

/-- The loop of `path.Clean` over the elements of the path.  `out` holds the
elements written so far, the last one first; `dotdot` is the number of leading
elements that a `..` may not remove.  An empty element and `.` are skipped;
`..` removes the last element when it may, is dropped on a rooted path, and is
written and protected on an unrooted one; any other element is written. -/
def cleanElems (rooted : Bool) (out : List (List Char)) (dotdot : Nat) :
    List (List Char) → List (List Char)
  | [] => out.reverse
  | e :: es =>
    if e = [] ∨ e = ['.'] then cleanElems rooted out dotdot es
    else if e = ['.', '.'] then
      if out.length > dotdot then cleanElems rooted out.tail dotdot es
      else if rooted then cleanElems rooted out dotdot es
      else cleanElems rooted (e :: out) (out.length + 1) es
    else cleanElems rooted (e :: out) dotdot es

/-- The elements joined by single slashes. -/
def joinSlash : List (List Char) → List Char
  | [] => []
  | [e] => e
  | e :: es => e ++ '/' :: joinSlash es

/-- `path.Clean(p)`: the shortest path equivalent to `p`; `.` for the empty
path and for an unrooted path with no element left. -/
def pathClean (p : String) : String :=
  if p = "" then "."
  else
    let rooted : Bool := p.toList.head? = some '/'
    let out := cleanElems rooted [] 0 (splitSlash p.toList)
    if rooted then String.mk ('/' :: joinSlash out)
    else if out = [] then "."
    else String.mk (joinSlash out)

/-- The cut `url[:i], url[i:]` at `i := strings.Index(url, "?")`; the second
part is empty when there is no `?`. -/
def cutAtQuery : List Char → List Char × List Char
  | [] => ([], [])
  | c :: cs => if c = '?' then ([], c :: cs) else (c :: (cutAtQuery cs).1, (cutAtQuery cs).2)

/-- `strings.HasSuffix(s, "/")`. -/
def hasSuffixSlash (s : String) : Bool := s.toList.getLast? = some '/'

/-- The hexadecimal digit of `n < 16`, in lower case. -/
def hexDigit (n : Nat) : Char := "0123456789abcdef".toList.getD n '0'

/-- The loop of `hexEscapeNonASCII`: every byte from `0x80` up, that is every
byte of the UTF-8 form of a character outside ASCII, becomes `%` and its two
hexadecimal digits. -/
def hexEscapeChars : List Char → List Char
  | [] => []
  | c :: cs =>
    (if c.toNat < 128 then [c]
     else (String.utf8EncodeChar c).flatMap
       (fun b => ['%', hexDigit (b.toNat / 16), hexDigit (b.toNat % 16)])) ++ hexEscapeChars cs

/-- `hexEscapeNonASCII(s)` of `net/http`. -/
def hexEscapeNonASCII (s : String) : String := String.mk (hexEscapeChars s.toList)

/-- The value of `url` after the first block of `http.Redirect`: a target that
parses without scheme and host is made absolute against the directory of the
request path, cut at its query, cleaned with its trailing slash kept, and given
its query back; any other target is left as it is. -/
def redirectTarget (Parse : String → Option ParsedURL) (reqPath url : String) : String :=
  match Parse url with
  | none => url
  | some u =>
    if u.Scheme = "" ∧ u.Host = "" then
      let oldpath := if reqPath = "" then "/" else reqPath
      let url1 :=
        if url = "" ∨ url.toList.head? ≠ some '/' then
          String.mk (pathSplitDir oldpath.toList) ++ url
        else url
      let cut := cutAtQuery url1.toList
      let url2 := String.mk cut.1
      let query := String.mk cut.2
      let trailing := hasSuffixSlash url2
      let url3 := pathClean url2
      let url4 := if trailing ∧ ¬ hasSuffixSlash url3 then url3 ++ "/" else url3
      url4 ++ query
    else url

/-- `http.Redirect(w, r, url, code)`: sets the `Location` header to the escaped
target, sets `Content-Type` on a `GET` or `HEAD` request when the header map had
none, and writes the header with status `code`. -/
def httpRedirect (Parse : String → Option ParsedURL) (w : ResponseWriter) (r : Request)
    (url : String) (code : Nat) : ResponseWriter :=
  let url := redirectTarget Parse r.URL.Path url
  let h := w.Header
  let hadCT := (h.index "Content-Type").isSome
  let h := h.Set "Location" (hexEscapeNonASCII url)
  let h :=
    if !hadCT && (r.Method = "GET" || r.Method = "HEAD") then
      h.Set "Content-Type" "text/html; charset=utf-8"
    else h
  ({ w with Header := h }).WriteHeader code

/-- Whether `http.Redirect` leaves the target as it is: `url.Parse` rejects it
or finds a scheme or a host in it. -/
def keepsTarget (Parse : String → Option ParsedURL) (url : String) : Bool :=
  match Parse url with
  | none => true
  | some u => u.Scheme ≠ "" || u.Host ≠ ""

/-- Whether every character of `s` is an ASCII character. -/
def isASCII (s : String) : Bool := s.toList.all (fun c => c.toNat < 128)

/-! ## Doubles for the HTTP response -/

/-- The loop of `getScheme` of `net/url` from index `i` of `raw`: `none` is the
error `missing protocol scheme`, `some (scheme, rest)` the two strings returned. -/
def getSchemeFrom (raw : List Char) (i : Nat) : List Char → Option (List Char × List Char)
  | [] => some ([], raw)
  | c :: cs =>
    if c.isAlpha then getSchemeFrom raw (i + 1) cs
    else if c.isDigit ∨ c = '+' ∨ c = '-' ∨ c = '.' then
      if i = 0 then some ([], raw) else getSchemeFrom raw (i + 1) cs
    else if c = ':' then
      if i = 0 then none else some (raw.take i, cs)
    else some ([], raw)

/-- A stand-in for `url.Parse`.  It follows the library's steps: drop the
fragment, reject control bytes, accept `*`, split off the scheme with
`getScheme`, drop the query, reject a colon in the first segment of a relative
path, and take the host from an authority that follows `//`.  It leaves out the
library's checks of the userinfo, host, port and percent-escapes, where the
library returns an error. -/
def sampleParse (rawURL : String) : Option ParsedURL :=
  let u := rawURL.toList.takeWhile (fun c => c ≠ '#')
  if u.any (fun c => c.toNat < 32 || c.toNat = 127) then none
  else if u = ['*'] then some ⟨"", ""⟩
  else
    match getSchemeFrom u 0 u with
    | none => none
    | some (scheme, rest0) =>
      let rest := rest0.takeWhile (fun c => c ≠ '?')
      if rest.head? ≠ some '/' then
        if scheme ≠ [] then some ⟨String.mk (scheme.map Char.toLower), ""⟩
        else if ':' ∈ rest.takeWhile (fun c => c ≠ '/') then none
        else some ⟨"", ""⟩
      else if (scheme ≠ [] ∨ rest.take 3 ≠ ['/', '/', '/']) ∧ rest.take 2 = ['/', '/'] then
        let authority := (rest.drop 2).takeWhile (fun c => c ≠ '/')
        let host := (authority.reverse.takeWhile (fun c => c ≠ '@')).reverse
        some ⟨String.mk (scheme.map Char.toLower), String.mk host⟩
      else some ⟨String.mk (scheme.map Char.toLower), ""⟩

/-- A response writer on which nothing was set or written. -/
def newWriter : ResponseWriter := { Header := [], Sent := none }

/-- A fallback handler that answers with status 404. -/
def sampleFallback : Handler ResponseWriter := fun w _ => w.WriteHeader 404

/-- The document of two records with absolute urls. -/
def routesDoc : List UInt8 :=
  bytesOf "- path: /x\n  url: https://example.com\n- path: /docs\n  url: https://go.dev/doc/\n"

/-- The document of two records whose urls have no scheme and no host. -/
def relativeDoc : List UInt8 :=
  bytesOf "- path: /a\n  url: url2\n- path: /only\n  url: \"\"\n"

/-- A stand-in for `yaml2.Unmarshal` that knows two documents of two records
each, `routesDoc` and `relativeDoc`, and rejects everything else leaving
`paths` as it was. -/
def routesUnmarshal (yaml : List UInt8) (paths : List YamlPath) : List YamlPath × Option String :=
  if yaml = routesDoc then
    ([⟨"/x", "https://example.com"⟩, ⟨"/docs", "https://go.dev/doc/"⟩], none)
  else if yaml = relativeDoc then ([⟨"/a", "url2"⟩, ⟨"/only", ""⟩], none)
  else (paths, some "yaml: did not find expected node content")

/-! ## The map operations -/

theorem GoMap.get_set_self (m : GoMap) (k v : String) : (m.set k v).get k = some v := by
  induction m with
  | nil => simp [GoMap.set, GoMap.get]
  | cons e m ih =>
    obtain ⟨k', v'⟩ := e
    by_cases h : k' = k
    · simp [GoMap.set, GoMap.get, h]
    · simp [GoMap.set, GoMap.get, h, ih]

theorem GoMap.get_set_other (m : GoMap) (k v j : String) (hj : j ≠ k) :
    (m.set k v).get j = m.get j := by
  induction m with
  | nil => simp [GoMap.set, GoMap.get, Ne.symm hj]
  | cons e m ih =>
    obtain ⟨k', v'⟩ := e
    by_cases h : k' = k
    · subst h
      simp [GoMap.set, GoMap.get, Ne.symm hj]
    · simp only [GoMap.set, h, if_false, GoMap.get, ih]

theorem GoMap.mem_keys_set (m : GoMap) (k v j : String) :
    j ∈ (m.set k v).keys ↔ j = k ∨ j ∈ m.keys := by
  induction m with
  | nil => simp [GoMap.set, GoMap.keys]
  | cons e m ih =>
    obtain ⟨k', v'⟩ := e
    by_cases h : k' = k
    · subst h
      simp [GoMap.set, GoMap.keys]
    · have ih' : j ∈ List.map Prod.fst (GoMap.set m k v) ↔ j = k ∨ j ∈ List.map Prod.fst m := ih
      simp only [GoMap.set, h, if_false, GoMap.keys, List.map_cons, List.mem_cons, ih']
      tauto

theorem GoMap.nodup_keys_set (m : GoMap) (k v : String) (hm : m.keys.Nodup) :
    (m.set k v).keys.Nodup := by
  induction m with
  | nil => simp [GoMap.set, GoMap.keys]
  | cons e m ih =>
    obtain ⟨k', v'⟩ := e
    have hm' : k' ∉ GoMap.keys m ∧ (GoMap.keys m).Nodup := by
      simpa [GoMap.keys] using hm
    by_cases h : k' = k
    · subst h
      simpa [GoMap.set, GoMap.keys] using hm
    · have hk : k' ∉ GoMap.keys (GoMap.set m k v) := by
        rw [GoMap.mem_keys_set]
        rintro (h1 | h1)
        · exact h h1
        · exact hm'.1 h1
      have ih' := ih hm'.2
      simp only [GoMap.set, h, if_false, GoMap.keys, List.map_cons, List.nodup_cons]
      exact ⟨hk, ih'⟩

theorem GoMap.get_isSome_iff (m : GoMap) (k : String) : (m.get k).isSome ↔ k ∈ m.keys := by
  induction m with
  | nil => simp [GoMap.get, GoMap.keys]
  | cons e m ih =>
    obtain ⟨k', v'⟩ := e
    have ih' : (GoMap.get m k).isSome = true ↔ k ∈ List.map Prod.fst m := ih
    by_cases h : k' = k
    · simp [GoMap.get, GoMap.keys, h]
    · simp only [GoMap.get, h, if_false, GoMap.keys, List.map_cons, List.mem_cons, ih']
      constructor
      · intro h1; exact Or.inr h1
      · rintro (h1 | h1)
        · exact absurd h1.symm h
        · exact h1

/-! ## The loop of `buildMap` -/

theorem buildMapLoop_append (m : GoMap) (xs ys : List YamlPath) :
    buildMapLoop m (xs ++ ys) = buildMapLoop (buildMapLoop m xs) ys := by
  induction xs generalizing m with
  | nil => rfl
  | cons x xs ih => simp [buildMapLoop, ih]

theorem get_buildMapLoop_absent (m : GoMap) (rs : List YamlPath) (k : String)
    (hk : ∀ x ∈ rs, x.Path ≠ k) : (buildMapLoop m rs).get k = m.get k := by
  induction rs generalizing m with
  | nil => rfl
  | cons x xs ih =>
    have hx : k ≠ x.Path := fun h => hk x (List.mem_cons_self _ _) h.symm
    rw [buildMapLoop, ih _ (fun y hy => hk y (List.mem_cons_of_mem _ hy)),
      GoMap.get_set_other _ _ _ _ hx]

theorem get_buildMapLoop_last (m : GoMap) (pre post : List YamlPath) (r : YamlPath)
    (hpost : ∀ x ∈ post, x.Path ≠ r.Path) :
    (buildMapLoop m (pre ++ r :: post)).get r.Path = some r.Url := by
  rw [buildMapLoop_append, buildMapLoop, get_buildMapLoop_absent _ _ _ hpost,
    GoMap.get_set_self]

theorem mem_keys_buildMapLoop (m : GoMap) (rs : List YamlPath) (k : String) :
    k ∈ (buildMapLoop m rs).keys ↔ k ∈ m.keys ∨ ∃ r ∈ rs, r.Path = k := by
  induction rs generalizing m with
  | nil => simp [buildMapLoop]
  | cons x xs ih =>
    rw [buildMapLoop, ih, GoMap.mem_keys_set]
    simp only [List.mem_cons, exists_eq_or_imp]
    constructor
    · rintro ((h | h) | h)
      · exact Or.inr (Or.inl h.symm)
      · exact Or.inl h
      · exact Or.inr (Or.inr h)
    · rintro (h | h | h)
      · exact Or.inl (Or.inr h)
      · exact Or.inl (Or.inl h.symm)
      · exact Or.inr h

theorem nodup_keys_buildMapLoop (m : GoMap) (rs : List YamlPath) (hm : m.keys.Nodup) :
    (buildMapLoop m rs).keys.Nodup := by
  induction rs generalizing m with
  | nil => exact hm
  | cons x xs ih => exact ih _ (GoMap.nodup_keys_set m _ _ hm)

/-- Every path that occurs in `rs` has a last occurrence. -/
theorem exists_last_rule (rs : List YamlPath) (p : String) (hp : p ∈ rs.map YamlPath.Path) :
    ∃ pre r post, rs = pre ++ r :: post ∧ r.Path = p ∧ ∀ x ∈ post, x.Path ≠ p := by
  induction rs with
  | nil => simp at hp
  | cons x xs ih =>
    by_cases hxs : p ∈ xs.map YamlPath.Path
    · obtain ⟨pre, r, post, h1, h2, h3⟩ := ih hxs
      exact ⟨x :: pre, r, post, by simp [h1], h2, h3⟩
    · have hx : x.Path = p := by
        simp only [List.map_cons, List.mem_cons] at hp
        rcases hp with h | h
        · exact h.symm
        · exact absurd h hxs
      refine ⟨[], x, xs, rfl, hx, ?_⟩
      intro y hy hyp
      exact hxs (List.mem_map.mpr ⟨y, hy, hyp⟩)

/-! ## `buildMap` as a whole -/

theorem get_buildMap_absent (rs : List YamlPath) (k : String) (hk : ∀ x ∈ rs, x.Path ≠ k) :
    (buildMap rs).get k = none := by
  unfold buildMap
  rw [get_buildMapLoop_absent _ _ _ hk]
  rfl

theorem get_buildMap_last (pre post : List YamlPath) (r : YamlPath)
    (hpost : ∀ x ∈ post, x.Path ≠ r.Path) :
    (buildMap (pre ++ r :: post)).get r.Path = some r.Url := by
  unfold buildMap
  exact get_buildMapLoop_last _ pre post r hpost

theorem mem_keys_buildMap (rs : List YamlPath) (k : String) :
    k ∈ (buildMap rs).keys ↔ ∃ r ∈ rs, r.Path = k := by
  unfold buildMap
  rw [mem_keys_buildMapLoop]
  simp [GoMap.make, GoMap.keys]

theorem nodup_keys_buildMap (rs : List YamlPath) : (buildMap rs).keys.Nodup := by
  unfold buildMap
  exact nodup_keys_buildMapLoop _ rs (by simp [GoMap.make, GoMap.keys])

theorem len_buildMap (rs : List YamlPath) :
    (buildMap rs).len = (rs.map YamlPath.Path).toFinset.card := by
  have h1 : (buildMap rs).len = (buildMap rs).keys.length := by
    simp [GoMap.len, GoMap.keys]
  have h2 : (buildMap rs).keys.toFinset = (rs.map YamlPath.Path).toFinset := by
    ext k
    simp only [List.mem_toFinset, mem_keys_buildMap, List.mem_map]
  rw [h1, ← List.toFinset_card_of_nodup (nodup_keys_buildMap rs), h2]

/-- With pairwise distinct paths every rule of `rs` is the entry of its path. -/
theorem get_buildMap_of_nodup (rs : List YamlPath) (hnd : (rs.map YamlPath.Path).Nodup)
    (r : YamlPath) (hr : r ∈ rs) : (buildMap rs).get r.Path = some r.Url := by
  obtain ⟨pre, post, hrs⟩ := List.append_of_mem hr
  subst hrs
  apply get_buildMap_last
  intro x hx hxp
  rw [List.map_append, List.map_cons, List.nodup_append] at hnd
  have h2 := (List.nodup_cons.mp hnd.2.1).1
  exact h2 (hxp ▸ List.mem_map_of_mem YamlPath.Path hx)

theorem get_buildMap_perm (rs rs' : List YamlPath) (hnd : (rs.map YamlPath.Path).Nodup)
    (hperm : rs'.Perm rs) (k : String) : (buildMap rs').get k = (buildMap rs).get k := by
  have hnd' : (rs'.map YamlPath.Path).Nodup := (hperm.map YamlPath.Path).nodup_iff.mpr hnd
  by_cases hk : ∃ r ∈ rs, r.Path = k
  · obtain ⟨r, hr, hrk⟩ := hk
    subst hrk
    rw [get_buildMap_of_nodup rs hnd r hr, get_buildMap_of_nodup rs' hnd' r (hperm.mem_iff.mpr hr)]
  · have h1 : ∀ x ∈ rs, x.Path ≠ k := fun x hx hxk => hk ⟨x, hx, hxk⟩
    have h2 : ∀ x ∈ rs', x.Path ≠ k := fun x hx hxk => hk ⟨x, hperm.mem_iff.mp hx, hxk⟩
    rw [get_buildMap_absent rs k h1, get_buildMap_absent rs' k h2]

/-! ## The handlers -/

theorem MapHandler_of_get_some {W : Type} (Redirect : W → Request → String → Nat → W)
    (m : GoMap) (fb : Handler W) (w : W) (req : Request) (dest : String)
    (h : m.get req.URL.Path = some dest) :
    MapHandler Redirect m fb w req = Redirect w req dest 302 := by
  simp only [MapHandler, h, StatusFound]

theorem MapHandler_of_get_none {W : Type} (Redirect : W → Request → String → Nat → W)
    (m : GoMap) (fb : Handler W) (w : W) (req : Request)
    (h : m.get req.URL.Path = none) :
    MapHandler Redirect m fb w req = fb w req := by
  simp only [MapHandler, h]

theorem parseYAML_of_error {E : Type}
    (Unmarshal : List UInt8 → List YamlPath → List YamlPath × Option E) (y : List UInt8) (e : E)
    (h : (Unmarshal y []).2 = some e) : parseYAML Unmarshal y = ([], some e) := by
  simp only [parseYAML, h]

theorem parseYAML_of_success {E : Type}
    (Unmarshal : List UInt8 → List YamlPath → List YamlPath × Option E) (y : List UInt8)
    (h : (Unmarshal y []).2 = none) : parseYAML Unmarshal y = ((Unmarshal y []).1, none) := by
  simp only [parseYAML, h]

theorem YAMLHandler_of_error {W E : Type} (Redirect : W → Request → String → Nat → W)
    (Unmarshal : List UInt8 → List YamlPath → List YamlPath × Option E) (y : List UInt8)
    (fb : Handler W) (e : E) (h : (Unmarshal y []).2 = some e) :
    YAMLHandler Redirect Unmarshal y fb = (none, some e) := by
  simp only [YAMLHandler, parseYAML_of_error Unmarshal y e h]

theorem YAMLHandler_of_success {W E : Type} (Redirect : W → Request → String → Nat → W)
    (Unmarshal : List UInt8 → List YamlPath → List YamlPath × Option E) (y : List UInt8)
    (fb : Handler W) (h : (Unmarshal y []).2 = none) :
    YAMLHandler Redirect Unmarshal y fb
      = (some (MapHandler Redirect (buildMap (Unmarshal y []).1) fb), none) := by
  simp only [YAMLHandler, parseYAML_of_success Unmarshal y h]

/-! ## The response of `http.Redirect` -/

theorem Header.index_assign_self (h : Header) (k : String) (vs : List String) :
    Header.index (Header.assign h k vs) k = some vs := by
  induction h with
  | nil => simp [Header.assign, Header.index]
  | cons e h ih =>
    obtain ⟨k', vs'⟩ := e
    by_cases hk : k' = k
    · simp [Header.assign, Header.index, hk]
    · simp [Header.assign, Header.index, hk, ih]

theorem Header.index_assign_other (h : Header) (k : String) (vs : List String) (j : String)
    (hj : j ≠ k) : Header.index (Header.assign h k vs) j = Header.index h j := by
  induction h with
  | nil => simp [Header.assign, Header.index, Ne.symm hj]
  | cons e h ih =>
    obtain ⟨k', vs'⟩ := e
    by_cases hk : k' = k
    · subst hk
      simp [Header.assign, Header.index, Ne.symm hj]
    · simp only [Header.assign, hk, if_false, Header.index, ih]

theorem hexEscapeChars_of_all_ascii (cs : List Char)
    (h : cs.all (fun c => c.toNat < 128) = true) : hexEscapeChars cs = cs := by
  induction cs with
  | nil => rfl
  | cons c cs ih =>
    simp only [List.all_cons, Bool.and_eq_true, decide_eq_true_eq] at h
    simp [hexEscapeChars, h.1, ih h.2]

theorem hexEscapeNonASCII_of_isASCII (s : String) (h : isASCII s = true) :
    hexEscapeNonASCII s = s := by
  unfold hexEscapeNonASCII
  rw [hexEscapeChars_of_all_ascii s.toList h]
  rfl

theorem redirectTarget_of_keepsTarget (Parse : String → Option ParsedURL) (reqPath url : String)
    (h : keepsTarget Parse url = true) : redirectTarget Parse reqPath url = url := by
  unfold keepsTarget at h
  unfold redirectTarget
  cases hp : Parse url with
  | none => rfl
  | some u =>
    rw [hp] at h
    have hu : ¬ (u.Scheme = "" ∧ u.Host = "") := by
      rintro ⟨h1, h2⟩
      simp [h1, h2] at h
    simp only [hu, if_false]

theorem httpRedirect_sent (Parse : String → Option ParsedURL) (w : ResponseWriter) (r : Request)
    (url : String) (code : Nat) (hw : w.Sent = none) :
    (httpRedirect Parse w r url code).Status = some code
      ∧ (httpRedirect Parse w r url code).Location
        = some [hexEscapeNonASCII (redirectTarget Parse r.URL.Path url)] := by
  have hne : ("Location" : String) ≠ "Content-Type" := by decide
  unfold httpRedirect
  simp only [ResponseWriter.WriteHeader, hw, ResponseWriter.Status, ResponseWriter.Location,
    Option.map_some', Option.some_bind, Header.Set]
  refine ⟨trivial, ?_⟩
  split
  · rw [Header.index_assign_other _ _ _ _ hne, Header.index_assign_self]
  · rw [Header.index_assign_self]

/-! ## Request handling -/

/-- C1, with the `Location` header that `http.Redirect` sets: when the request
path is a key of the map, with value `dest`,
the handler built by `MapHandler` answers with the call
`http.Redirect(w, req, dest, 302)` and nothing else: the result is the same
whatever the fallback is, and a recording writer sees that one call and no
`ServeHTTP` of the fallback.  On a writer whose header is not yet written the
response sent has status 302 and its `Location` header is the escaped target
that `http.Redirect` derives from `dest` and the request path; it is `dest`
itself when `dest` is ASCII and `url.Parse` rejects it or finds a scheme or a
host in it. -/
theorem MapHandler_redirect_response (Parse : String → Option ParsedURL) (m : GoMap)
    (fb : Handler ResponseWriter) (w : ResponseWriter) (req : Request) (dest : String)
    (h : m.get req.URL.Path = some dest) :
    MapHandler (httpRedirect Parse) m fb w req = httpRedirect Parse w req dest 302
      ∧ (∀ fb' : Handler ResponseWriter,
          MapHandler (httpRedirect Parse) m fb' w req = MapHandler (httpRedirect Parse) m fb w req)
      ∧ MapHandler recordRedirect m recordFallback [] req = [Call.Redirect req dest 302]
      ∧ (w.Sent = none →
          (MapHandler (httpRedirect Parse) m fb w req).Status = some 302
            ∧ (MapHandler (httpRedirect Parse) m fb w req).Location
              = some [hexEscapeNonASCII (redirectTarget Parse req.URL.Path dest)])
      ∧ (w.Sent = none → keepsTarget Parse dest = true → isASCII dest = true →
          (MapHandler (httpRedirect Parse) m fb w req).Location = some [dest]) := by
  have hcall := MapHandler_of_get_some (httpRedirect Parse) m fb w req dest h
  refine ⟨hcall, ?_, ?_, ?_, ?_⟩
  · intro fb'
    rw [MapHandler_of_get_some (httpRedirect Parse) m fb' w req dest h, hcall]
  · rw [MapHandler_of_get_some recordRedirect m recordFallback [] req dest h]
    rfl
  · intro hw
    rw [hcall]
    exact httpRedirect_sent Parse w req dest 302 hw
  · intro hw hkeep hascii
    rw [hcall, (httpRedirect_sent Parse w req dest 302 hw).2,
      redirectTarget_of_keepsTarget Parse req.URL.Path dest hkeep,
      hexEscapeNonASCII_of_isASCII dest hascii]

theorem MapHandler_redirect_response_witness :
    GoMap.get [("/x", "https://example.com"), ("/a", "url2")]
        (sampleRequest "POST" "/x" "a=1").URL.Path = some "https://example.com"
      ∧ newWriter.Sent = none
      ∧ keepsTarget sampleParse "https://example.com" = true
      ∧ isASCII "https://example.com" = true
      ∧ (MapHandler (httpRedirect sampleParse) [("/x", "https://example.com"), ("/a", "url2")]
          sampleFallback newWriter (sampleRequest "POST" "/x" "a=1")).Status = some 302
      ∧ (MapHandler (httpRedirect sampleParse) [("/x", "https://example.com"), ("/a", "url2")]
          sampleFallback newWriter (sampleRequest "POST" "/x" "a=1")).Location
        = some ["https://example.com"] :=
  ⟨by decide, by decide, by decide, by decide,
    ((MapHandler_redirect_response sampleParse [("/x", "https://example.com"), ("/a", "url2")]
      sampleFallback newWriter (sampleRequest "POST" "/x" "a=1") "https://example.com"
      (by decide)).2.2.2.1 (by decide)).1,
    (MapHandler_redirect_response sampleParse [("/x", "https://example.com"), ("/a", "url2")]
      sampleFallback newWriter (sampleRequest "POST" "/x" "a=1") "https://example.com"
      (by decide)).2.2.2.2 (by decide) (by decide) (by decide)⟩

/-- C1 does not hold with the mapped URL as the `Location` header: with the
map `/a ↦ url2` the request `GET /a` has a
path that is a key, and the response has status 302 with the `Location`
header `/url2`, which is not the mapped URL `url2`; with the map `/only ↦ ""`
the request `GET /only` gets the `Location` header `/`. -/
theorem MapHandler_location_not_mapped_url :
    GoMap.get [("/a", "url2")] (sampleRequest "GET" "/a" "").URL.Path = some "url2"
      ∧ sampleParse "url2" = some ⟨"", ""⟩
      ∧ (MapHandler (httpRedirect sampleParse) [("/a", "url2")] sampleFallback newWriter
          (sampleRequest "GET" "/a" "")).Status = some 302
      ∧ (MapHandler (httpRedirect sampleParse) [("/a", "url2")] sampleFallback newWriter
          (sampleRequest "GET" "/a" "")).Location = some ["/url2"]
      ∧ (MapHandler (httpRedirect sampleParse) [("/a", "url2")] sampleFallback newWriter
          (sampleRequest "GET" "/a" "")).Location ≠ some ["url2"]
      ∧ GoMap.get [("/only", "")] (sampleRequest "GET" "/only" "").URL.Path = some ""
      ∧ (MapHandler (httpRedirect sampleParse) [("/only", "")] sampleFallback newWriter
          (sampleRequest "GET" "/only" "")).Location = some ["/"] := by
  decide

/-- C2: when the request path is not a key of the map, the handler built by
`MapHandler` is the call `fallback.ServeHTTP(w, req)` on the writer and the
request it was given, so its response is the fallback's response; on a
recording writer exactly one call is recorded, the fallback's `ServeHTTP` with
the unmodified request, and no redirect. -/
theorem MapHandler_delegates_unmapped_path {W : Type}
    (Redirect : W → Request → String → Nat → W) (m : GoMap) (fb : Handler W) (w : W)
    (req : Request) (h : m.get req.URL.Path = none) :
    MapHandler Redirect m fb w req = fb w req
      ∧ MapHandler recordRedirect m recordFallback [] req = [Call.ServeHTTP req] := by
  refine ⟨MapHandler_of_get_none Redirect m fb w req h, ?_⟩
  rw [MapHandler_of_get_none recordRedirect m recordFallback [] req h]
  rfl

theorem MapHandler_delegates_unmapped_path_witness :
    GoMap.get [("/x", "https://example.com")] (sampleRequest "GET" "/y" "").URL.Path = none
      ∧ MapHandler recordRedirect [("/x", "https://example.com")] recordFallback []
          (sampleRequest "GET" "/y" "")
        = [Call.ServeHTTP (sampleRequest "GET" "/y" "")] :=
  ⟨by decide,
    (MapHandler_delegates_unmapped_path recordRedirect [("/x", "https://example.com")]
      recordFallback [] (sampleRequest "GET" "/y" "") (by decide)).2⟩

/-- C8: the handler built by `MapHandler` reads only the request path.  For two
requests with the same path, whatever their method, query, headers and body and
whatever the writers, either the path is a key and both are answered with
`http.Redirect` to the same target `dest` with status 302, or the path is not
a key and both are handed to the fallback. -/
theorem MapHandler_reads_only_path {W : Type}
    (Redirect : W → Request → String → Nat → W) (m : GoMap) (fb : Handler W) (w1 w2 : W)
    (r1 r2 : Request) (h : r1.URL.Path = r2.URL.Path) :
    (∃ dest, m.get r1.URL.Path = some dest
        ∧ MapHandler Redirect m fb w1 r1 = Redirect w1 r1 dest 302
        ∧ MapHandler Redirect m fb w2 r2 = Redirect w2 r2 dest 302)
      ∨ (m.get r1.URL.Path = none
        ∧ MapHandler Redirect m fb w1 r1 = fb w1 r1
        ∧ MapHandler Redirect m fb w2 r2 = fb w2 r2) := by
  cases hg : m.get r1.URL.Path with
  | none =>
    exact Or.inr ⟨rfl, MapHandler_of_get_none Redirect m fb w1 r1 hg,
      MapHandler_of_get_none Redirect m fb w2 r2 (h ▸ hg)⟩
  | some dest =>
    exact Or.inl ⟨dest, rfl, MapHandler_of_get_some Redirect m fb w1 r1 dest hg,
      MapHandler_of_get_some Redirect m fb w2 r2 dest (h ▸ hg)⟩

theorem MapHandler_reads_only_path_witness :
    (sampleRequest "GET" "/x" "").URL.Path = otherRequest.URL.Path
      ∧ sampleRequest "GET" "/x" "" ≠ otherRequest
      ∧ ((∃ dest, GoMap.get [("/x", "https://example.com")] (sampleRequest "GET" "/x" "").URL.Path
            = some dest
          ∧ MapHandler recordRedirect [("/x", "https://example.com")] recordFallback []
              (sampleRequest "GET" "/x" "")
            = recordRedirect [] (sampleRequest "GET" "/x" "") dest 302
          ∧ MapHandler recordRedirect [("/x", "https://example.com")] recordFallback []
              otherRequest
            = recordRedirect [] otherRequest dest 302)
        ∨ (GoMap.get [("/x", "https://example.com")] (sampleRequest "GET" "/x" "").URL.Path = none
          ∧ MapHandler recordRedirect [("/x", "https://example.com")] recordFallback []
              (sampleRequest "GET" "/x" "")
            = recordFallback [] (sampleRequest "GET" "/x" "")
          ∧ MapHandler recordRedirect [("/x", "https://example.com")] recordFallback []
              otherRequest
            = recordFallback [] otherRequest)) :=
  ⟨by decide, by decide,
    MapHandler_reads_only_path recordRedirect [("/x", "https://example.com")] recordFallback
      [] [] (sampleRequest "GET" "/x" "") otherRequest (by decide)⟩

/-! ## Decoding and composing -/

/-- C9: `parseYAML` gives no partial result.  When the decoder reports an
error `e`, `parseYAML` returns the nil sequence and `e`, whatever the decoder
left in `paths`; when the decoder reports no error, `parseYAML` returns the
decoded records, in the decoder's order, and the nil error. -/
theorem parseYAML_no_partial_result {E : Type}
    (Unmarshal : List UInt8 → List YamlPath → List YamlPath × Option E) (y : List UInt8) :
    (∀ e, (Unmarshal y []).2 = some e → parseYAML Unmarshal y = ([], some e))
      ∧ ((Unmarshal y []).2 = none → parseYAML Unmarshal y = ((Unmarshal y []).1, none)) :=
  ⟨fun e h => parseYAML_of_error Unmarshal y e h, fun h => parseYAML_of_success Unmarshal y h⟩

/-- C3: the error `YAMLHandler` returns is the error of `parseYAML`, which is
the decoder's error, so it is non-nil exactly when decoding fails; when it is
non-nil the returned handler is nil, and when it is nil the returned handler is
`MapHandler(buildMap(parsedYaml), fallback)`. -/
theorem YAMLHandler_error_iff_decode_fails {W E : Type}
    (Redirect : W → Request → String → Nat → W)
    (Unmarshal : List UInt8 → List YamlPath → List YamlPath × Option E) (y : List UInt8)
    (fb : Handler W) :
    (YAMLHandler Redirect Unmarshal y fb).2 = (parseYAML Unmarshal y).2
      ∧ (parseYAML Unmarshal y).2 = (Unmarshal y []).2
      ∧ ((YAMLHandler Redirect Unmarshal y fb).2 ≠ none ↔ (parseYAML Unmarshal y).2 ≠ none)
      ∧ ((parseYAML Unmarshal y).2 ≠ none → (YAMLHandler Redirect Unmarshal y fb).1 = none)
      ∧ ((parseYAML Unmarshal y).2 = none →
          (YAMLHandler Redirect Unmarshal y fb).1
            = some (MapHandler Redirect (buildMap (parseYAML Unmarshal y).1) fb)) := by
  cases hu : (Unmarshal y []).2 with
  | none =>
    rw [YAMLHandler_of_success Redirect Unmarshal y fb hu, parseYAML_of_success Unmarshal y hu]
    simp
  | some e =>
    rw [YAMLHandler_of_error Redirect Unmarshal y fb e hu, parseYAML_of_error Unmarshal y e hu]
    simp

theorem parseYAML_no_partial_result_witness :
    (sampleUnmarshal brokenDoc []).1 = [⟨"/p", "https://p.example"⟩, ⟨"/q", ""⟩]
      ∧ parseYAML sampleUnmarshal brokenDoc = ([], some "yaml: unmarshal errors") :=
  ⟨by decide,
    (parseYAML_no_partial_result sampleUnmarshal brokenDoc).1 "yaml: unmarshal errors"
      (by decide)⟩

theorem YAMLHandler_error_iff_decode_fails_witness :
    (YAMLHandler recordRedirect sampleUnmarshal brokenDoc recordFallback).1 = none
      ∧ (YAMLHandler recordRedirect sampleUnmarshal brokenDoc recordFallback).2
        = some "yaml: unmarshal errors" :=
  ⟨(YAMLHandler_error_iff_decode_fails recordRedirect sampleUnmarshal brokenDoc
      recordFallback).2.2.2.1 (by decide),
    ((YAMLHandler_error_iff_decode_fails recordRedirect sampleUnmarshal brokenDoc
      recordFallback).1.trans
      (YAMLHandler_error_iff_decode_fails recordRedirect sampleUnmarshal brokenDoc
        recordFallback).2.1).trans (by decide)⟩

/-! ## The built map -/

/-- C4: last wins.  For a path `p` that occurs in `rs`, the sequence splits as
`pre ++ r :: post` where `r` has path `p` and no rule of `post` has, that is
`r` is the last rule of path `p`, and `buildMap(rs)` maps `p` to the url of
`r`.  In particular `buildMap([{/a, url1}, {/a, url2}])` maps `/a` to `url2`. -/
theorem buildMap_last_wins (rs : List YamlPath) (p : String)
    (hp : p ∈ rs.map YamlPath.Path) :
    (∃ pre r post, rs = pre ++ r :: post ∧ r.Path = p ∧ (∀ x ∈ post, x.Path ≠ p)
        ∧ (buildMap rs).get p = some r.Url)
      ∧ (∀ url1 url2 : String, (buildMap [⟨"/a", url1⟩, ⟨"/a", url2⟩]).get "/a" = some url2) := by
  constructor
  · obtain ⟨pre, r, post, hrs, hr, hpost⟩ := exists_last_rule rs p hp
    refine ⟨pre, r, post, hrs, hr, hpost, ?_⟩
    subst hr
    rw [hrs]
    exact get_buildMap_last pre post r hpost
  · intro url1 url2
    exact get_buildMap_last [⟨"/a", url1⟩] [] ⟨"/a", url2⟩ (by simp)

theorem buildMap_last_wins_witness :
    "/a" ∈ ([⟨"/a", "url1"⟩, ⟨"/b", "url3"⟩, ⟨"/a", "url2"⟩] : List YamlPath).map YamlPath.Path
      ∧ (buildMap [⟨"/a", "url1"⟩, ⟨"/b", "url3"⟩, ⟨"/a", "url2"⟩]).get "/a" = some "url2"
      ∧ ∃ (pre : List YamlPath) (r : YamlPath) (post : List YamlPath),
        [⟨"/a", "url1"⟩, ⟨"/b", "url3"⟩, ⟨"/a", "url2"⟩] = pre ++ r :: post
        ∧ r.Path = "/a" ∧ (∀ x ∈ post, x.Path ≠ "/a")
        ∧ (buildMap [⟨"/a", "url1"⟩, ⟨"/b", "url3"⟩, ⟨"/a", "url2"⟩]).get "/a" = some r.Url :=
  ⟨by decide, by decide,
    (buildMap_last_wins [⟨"/a", "url1"⟩, ⟨"/b", "url3"⟩, ⟨"/a", "url2"⟩] "/a" (by decide)).1⟩

/-- C5: `buildMap(rs)` has one entry for each distinct path of `rs`: a string
is a key exactly when it is the path of a rule of `rs`, no key has two entries,
and the number of entries is the number of distinct paths of `rs`. -/
theorem buildMap_one_entry_per_path (rs : List YamlPath) :
    (∀ p, ((buildMap rs).get p).isSome ↔ ∃ r ∈ rs, r.Path = p)
      ∧ (∀ p, p ∈ (buildMap rs).keys ↔ ∃ r ∈ rs, r.Path = p)
      ∧ (buildMap rs).keys.Nodup
      ∧ (buildMap rs).len = (rs.map YamlPath.Path).toFinset.card :=
  ⟨fun p => (GoMap.get_isSome_iff (buildMap rs) p).trans (mem_keys_buildMap rs p),
    fun p => mem_keys_buildMap rs p, nodup_keys_buildMap rs, len_buildMap rs⟩

/-- C10: for rules with pairwise distinct paths the order does not matter:
`buildMap` of a permutation of `rs` has the same value as `buildMap(rs)` at
every key, the same keys and the same number of entries. -/
theorem buildMap_perm_of_distinct_paths (rs rs' : List YamlPath)
    (hnd : (rs.map YamlPath.Path).Nodup) (hperm : rs'.Perm rs) :
    (∀ k, (buildMap rs').get k = (buildMap rs).get k)
      ∧ (∀ k, k ∈ (buildMap rs').keys ↔ k ∈ (buildMap rs).keys)
      ∧ (buildMap rs').len = (buildMap rs).len := by
  refine ⟨fun k => get_buildMap_perm rs rs' hnd hperm k, fun k => ?_, ?_⟩
  · rw [mem_keys_buildMap, mem_keys_buildMap]
    exact ⟨fun ⟨r, hr, h⟩ => ⟨r, hperm.mem_iff.mp hr, h⟩,
      fun ⟨r, hr, h⟩ => ⟨r, hperm.mem_iff.mpr hr, h⟩⟩
  · rw [len_buildMap, len_buildMap, List.toFinset_eq_of_perm _ _ (hperm.map YamlPath.Path)]

theorem buildMap_perm_of_distinct_paths_witness :
    (([⟨"/a", "u1"⟩, ⟨"/b", "u2"⟩, ⟨"/c", "u3"⟩] : List YamlPath).map YamlPath.Path).Nodup
      ∧ (∀ k, (buildMap [⟨"/c", "u3"⟩, ⟨"/a", "u1"⟩, ⟨"/b", "u2"⟩]).get k
          = (buildMap [⟨"/a", "u1"⟩, ⟨"/b", "u2"⟩, ⟨"/c", "u3"⟩]).get k) :=
  ⟨by decide,
    (buildMap_perm_of_distinct_paths [⟨"/a", "u1"⟩, ⟨"/b", "u2"⟩, ⟨"/c", "u3"⟩]
      [⟨"/c", "u3"⟩, ⟨"/a", "u1"⟩, ⟨"/b", "u2"⟩] (by decide) (by decide)).1⟩

/-! ## From the document to the handler -/

/-- C6, with the `Location` header that `http.Redirect` sets: when the decoder
succeeds with records `rs` of pairwise distinct paths, `YAMLHandler` returns the handler
`MapHandler(buildMap(rs), fallback)` and the nil error, and for every record of
`rs` that handler answers a request for the record's path with the call
`http.Redirect(w, req, url, 302)` on the record's url.  On a writer whose
header is not yet written the response sent has status 302 and its `Location`
header is the escaped target that `http.Redirect` derives from the record's url
and the request path; it is the record's url itself when that url is ASCII and
`url.Parse` rejects it or finds a scheme or a host in it. -/
theorem YAMLHandler_redirect_response {E : Type} (Parse : String → Option ParsedURL)
    (Unmarshal : List UInt8 → List YamlPath → List YamlPath × Option E) (y : List UInt8)
    (fb : Handler ResponseWriter) (rs : List YamlPath) (r : YamlPath) (w : ResponseWriter)
    (req : Request) (hdec : Unmarshal y [] = (rs, none)) (hnd : (rs.map YamlPath.Path).Nodup)
    (hr : r ∈ rs) (hreq : req.URL.Path = r.Path) :
    YAMLHandler (httpRedirect Parse) Unmarshal y fb
        = (some (MapHandler (httpRedirect Parse) (buildMap rs) fb), none)
      ∧ MapHandler (httpRedirect Parse) (buildMap rs) fb w req = httpRedirect Parse w req r.Url 302
      ∧ (w.Sent = none →
          (MapHandler (httpRedirect Parse) (buildMap rs) fb w req).Status = some 302
            ∧ (MapHandler (httpRedirect Parse) (buildMap rs) fb w req).Location
              = some [hexEscapeNonASCII (redirectTarget Parse req.URL.Path r.Url)])
      ∧ (w.Sent = none → keepsTarget Parse r.Url = true → isASCII r.Url = true →
          (MapHandler (httpRedirect Parse) (buildMap rs) fb w req).Location = some [r.Url]) := by
  have hget : (buildMap rs).get req.URL.Path = some r.Url := by
    rw [hreq]
    exact get_buildMap_of_nodup rs hnd r hr
  have hcall := MapHandler_of_get_some (httpRedirect Parse) (buildMap rs) fb w req r.Url hget
  refine ⟨?_, hcall, ?_, ?_⟩
  · rw [YAMLHandler_of_success (httpRedirect Parse) Unmarshal y fb (by rw [hdec]), hdec]
  · intro hw
    rw [hcall]
    exact httpRedirect_sent Parse w req r.Url 302 hw
  · intro hw hkeep hascii
    rw [hcall, (httpRedirect_sent Parse w req r.Url 302 hw).2,
      redirectTarget_of_keepsTarget Parse req.URL.Path r.Url hkeep,
      hexEscapeNonASCII_of_isASCII r.Url hascii]

theorem YAMLHandler_redirect_response_witness :
    routesUnmarshal routesDoc []
        = ([⟨"/x", "https://example.com"⟩, ⟨"/docs", "https://go.dev/doc/"⟩], none)
      ∧ (([⟨"/x", "https://example.com"⟩, ⟨"/docs", "https://go.dev/doc/"⟩] :
          List YamlPath).map YamlPath.Path).Nodup
      ∧ keepsTarget sampleParse "https://go.dev/doc/" = true
      ∧ isASCII "https://go.dev/doc/" = true
      ∧ (MapHandler (httpRedirect sampleParse)
          (buildMap [⟨"/x", "https://example.com"⟩, ⟨"/docs", "https://go.dev/doc/"⟩])
          sampleFallback newWriter (sampleRequest "GET" "/docs" "")).Status = some 302
      ∧ (MapHandler (httpRedirect sampleParse)
          (buildMap [⟨"/x", "https://example.com"⟩, ⟨"/docs", "https://go.dev/doc/"⟩])
          sampleFallback newWriter (sampleRequest "GET" "/docs" "")).Location
        = some ["https://go.dev/doc/"] :=
  ⟨by decide, by decide, by decide, by decide,
    ((YAMLHandler_redirect_response sampleParse routesUnmarshal routesDoc sampleFallback
      [⟨"/x", "https://example.com"⟩, ⟨"/docs", "https://go.dev/doc/"⟩]
      ⟨"/docs", "https://go.dev/doc/"⟩ newWriter (sampleRequest "GET" "/docs" "")
      (by decide) (by decide) (by decide) (by decide)).2.2.1 (by decide)).1,
    (YAMLHandler_redirect_response sampleParse routesUnmarshal routesDoc sampleFallback
      [⟨"/x", "https://example.com"⟩, ⟨"/docs", "https://go.dev/doc/"⟩]
      ⟨"/docs", "https://go.dev/doc/"⟩ newWriter (sampleRequest "GET" "/docs" "")
      (by decide) (by decide) (by decide) (by decide)).2.2.2 (by decide) (by decide)
      (by decide)⟩

/-- C6 does not hold with the record's url as the `Location` header: the
records `{/a, url2}` and `{/only, ""}` decode
without error and have distinct paths, and the handler `YAMLHandler` returns
answers `GET /a` with status 302 and the `Location` header `/url2`, which is
not the record's url `url2`, and answers `GET /only` with the `Location`
header `/`, which is not the record's url `""`. -/
theorem YAMLHandler_location_not_record_url :
    routesUnmarshal relativeDoc [] = ([⟨"/a", "url2"⟩, ⟨"/only", ""⟩], none)
      ∧ (([⟨"/a", "url2"⟩, ⟨"/only", ""⟩] : List YamlPath).map YamlPath.Path).Nodup
      ∧ (YAMLHandler (httpRedirect sampleParse) routesUnmarshal relativeDoc sampleFallback).2
        = none
      ∧ (YAMLHandler (httpRedirect sampleParse) routesUnmarshal relativeDoc sampleFallback).1.map
          (fun h => (h newWriter (sampleRequest "GET" "/a" "")).Status) = some (some 302)
      ∧ (YAMLHandler (httpRedirect sampleParse) routesUnmarshal relativeDoc sampleFallback).1.map
          (fun h => (h newWriter (sampleRequest "GET" "/a" "")).Location) = some (some ["/url2"])
      ∧ (YAMLHandler (httpRedirect sampleParse) routesUnmarshal relativeDoc sampleFallback).1.map
          (fun h => (h newWriter (sampleRequest "GET" "/a" "")).Location) ≠ some (some ["url2"])
      ∧ (YAMLHandler (httpRedirect sampleParse) routesUnmarshal relativeDoc sampleFallback).1.map
          (fun h => (h newWriter (sampleRequest "GET" "/only" "")).Location) = some (some ["/"])
      ∧ (YAMLHandler (httpRedirect sampleParse) routesUnmarshal relativeDoc sampleFallback).1.map
          (fun h => (h newWriter (sampleRequest "GET" "/only" "")).Location) ≠ some (some [""]) := by
  decide

/-- C7: when the decoder succeeds with records `rs` and the map `m` has the
entries of `buildMap(rs)`, `YAMLHandler` returns a handler and the nil error,
and on every writer and request that handler does what `MapHandler(m, fallback)`
does: the same redirect, to the same target with the same status, or the same
call of the fallback. -/
theorem YAMLHandler_agrees_with_MapHandler {W E : Type}
    (Redirect : W → Request → String → Nat → W)
    (Unmarshal : List UInt8 → List YamlPath → List YamlPath × Option E) (y : List UInt8)
    (fb : Handler W) (rs : List YamlPath) (m : GoMap)
    (hdec : Unmarshal y [] = (rs, none)) (hm : ∀ k, m.get k = (buildMap rs).get k) :
    ∃ h : Handler W, YAMLHandler Redirect Unmarshal y fb = (some h, none)
      ∧ ∀ w req, h w req = MapHandler Redirect m fb w req := by
  refine ⟨MapHandler Redirect (buildMap rs) fb, ?_, ?_⟩
  · rw [YAMLHandler_of_success Redirect Unmarshal y fb (by rw [hdec]), hdec]
  · intro w req
    simp only [MapHandler, hm]

theorem YAMLHandler_agrees_with_MapHandler_witness :
    sampleUnmarshal sampleDoc [] = ([⟨"/x", "https://example.com"⟩], none)
      ∧ ∃ h : Handler Recorder,
        YAMLHandler recordRedirect sampleUnmarshal sampleDoc recordFallback = (some h, none)
          ∧ ∀ w req, h w req
            = MapHandler recordRedirect [("/x", "https://example.com")] recordFallback w req :=
  ⟨by decide,
    YAMLHandler_agrees_with_MapHandler recordRedirect sampleUnmarshal sampleDoc recordFallback
      [⟨"/x", "https://example.com"⟩] [("/x", "https://example.com")] (by decide)
      (fun _ => rfl)⟩

end urlshort
